import Mathlib

/-!
Shallow embedding of the exact-enumeration Bayesian inference engine of
`Motor_de_inferencia.py` (class `RedBayesiana`).

Python dictionaries of string values are modelled as insertion-ordered
association lists, pandas cells as `Option String` (`none` models a missing
NaN cell), probabilities as `ℚ`, and raised exceptions as `Except String`.
-/

attribute [local semireducible] Rat.mul Rat.add Rat.inv Rat.sub

/-- A Python dict mapping variable names to string values, in insertion order. -/
abbrev Dict := List (String × String)

/-- `d[k]` as a total lookup: the value bound to `k`, if any. -/
def dictGet (d : Dict) (k : String) : Option String :=
  match d with
  | [] => none
  | (k', v) :: rest => if k' = k then some v else dictGet rest k

/-- `d[k] = v` on a dict with distinct keys: replace the existing binding in
place (Python dicts keep the original position) or append a new one. -/
def dictInsert (d : Dict) (k v : String) : Dict :=
  match d with
  | [] => [(k, v)]
  | (k', v') :: rest => if k' = k then (k, v) :: rest else (k', v') :: dictInsert rest k v

/-- One row of a CPT DataFrame: the cells of the variable columns (a `none`
cell models a pandas NaN, which compares unequal to every value) and the
`probabilidad` column. -/
structure Row where
  cells : List (String × Option String)
  prob : ℚ
deriving DecidableEq

/-- The cell of row `r` in column `c` (`df[c]` at that row). -/
def Row.getCell (r : Row) (c : String) : Option String :=
  match r.cells with
  | [] => none
  | _ => go r.cells
where go : List (String × Option String) → Option String
  | [] => none
  | (c', x) :: rest => if c' = c then x else go rest

/-- A stored CPT: the DataFrame rows, the declared parent columns and the
variable's own value column (`cargar_cpt` metadata). -/
structure CPT where
  data : List Row
  padres : List String
  columna_valor : String
deriving DecidableEq

/-- `self.cpts`: the per-variable CPT registry. -/
abbrev Cpts := List (String × CPT)

/-- `self.cpts[v]` as a total lookup. -/
def getCpt (cpts : Cpts) (v : String) : Option CPT :=
  match cpts with
  | [] => none
  | (k, c) :: rest => if k = v then some c else getCpt rest v

/-- First-occurrence deduplication, as `pandas.Series.unique` performs it:
keep each value the first time it appears, drop later repetitions. -/
def uniqueFirstAux (seen : List String) : List String → List String
  | [] => []
  | x :: xs => if seen.contains x then uniqueFirstAux seen xs
               else x :: uniqueFirstAux (x :: seen) xs

/-- The value domain of a variable read off its CPT:
`list(df[columna_valor].unique())` filtered by `pd.notna` — the distinct
non-missing values of the value column, first occurrences first.  (Dropping
the NaNs before or after first-occurrence deduplication yields the same
list, so the two steps are fused here.) -/
def valoresDe (cpt : CPT) : List String :=
  uniqueFirstAux [] (cpt.data.filterMap (fun r => r.getCell cpt.columna_valor))

/-- The row mask of `obtener_probabilidad`: the row agrees with
`evidencia_parcial` on every declared parent column that the evidence
mentions; parents absent from the evidence do not constrain the row. -/
def padresMask (cpt : CPT) (evidencia : Dict) (r : Row) : Bool :=
  cpt.padres.all (fun p =>
    match dictGet evidencia p with
    | none => true
    | some v => r.getCell p == some v)

/-- `filas_coincidentes = df[mascara]`: the rows surviving the parent filter. -/
def filasCoincidentes (cpt : CPT) (evidencia : Dict) : List Row :=
  cpt.data.filter (padresMask cpt evidencia)

/-- The rows of `rows` whose value column equals `valor`. -/
def filasValor (cpt : CPT) (rows : List Row) (valor : String) : List Row :=
  rows.filter (fun r => r.getCell cpt.columna_valor == some valor)

/-- `RedBayesiana.obtener_probabilidad(variable, valor, evidencia_parcial)`:
raises if the variable has no CPT; with no declared parents matches on the
value column alone; otherwise filters rows by the parent evidence and then
by the value, returning `0.0` when either filter leaves nothing and the
first surviving row's probability otherwise. -/
def obtener_probabilidad (cpts : Cpts) (nodo valor : String) (evidencia : Dict) :
    Except String ℚ :=
  match getCpt cpts nodo with
  | none => .error ("No hay CPT para " ++ nodo)
  | some cpt =>
    if cpt.padres.isEmpty then
      match filasValor cpt cpt.data valor with
      | [] => .ok 0
      | fila :: _ => .ok fila.prob
    else
      match filasCoincidentes cpt evidencia with
      | [] => .ok 0
      | fila0 :: resto =>
        match filasValor cpt (fila0 :: resto) valor with
        | [] => .ok 0
        | fila :: _ => .ok fila.prob

/-- One turn of the `for valor in valores_variable` loop: recurse (through
`recurse`) on the extended copy of the assignment and prepend the resulting
combinations, propagating the leftmost exception. -/
def enumStep (recurse : Dict → Except String (List Dict)) (vr : String) (asig : Dict)
    (val : String) (acc : Except String (List Dict)) : Except String (List Dict) :=
  match recurse (dictInsert asig vr val) with
  | .error e => .error e
  | .ok l =>
    match acc with
    | .error e => .error e
    | .ok ls => .ok (l ++ ls)

/-- `enumerar_combinaciones(variables, asignacion_actual)`: base case returns
the single current assignment; otherwise takes the first variable, reads its
value domain from its CPT (a missing CPT raises a `KeyError`), and for every
value extends a copy of the assignment and recurses, concatenating the
recursive results in order. -/
def enumerar_combinaciones (cpts : Cpts) : List String → Dict → Except String (List Dict)
  | [], asig => .ok [asig]
  | vr :: rest, asig =>
    match getCpt cpts vr with
    | none => .error ("KeyError: " ++ vr)
    | some cpt =>
      (valoresDe cpt).foldr
        (enumStep (enumerar_combinaciones cpts rest) vr asig) (.ok [])

/-- One chain-rule factor as appended to `explicacion` inside
`calcular_probabilidad_conjunta`: the variable, its assigned value, the
parent evidence echoed when the variable has parents, and the factor. -/
structure Paso where
  nodo : String
  valor : String
  padresEv : Option Dict
  prob : ℚ
deriving DecidableEq

/-- The dictionary `evidencia_padres` built for one variable inside
`calcular_probabilidad_conjunta`: empty when the variable has no CPT,
otherwise one entry per declared parent that the complete assignment binds. -/
def evidenciaPadres (cpts : Cpts) (asig : Dict) (nodo : String) : Dict :=
  match getCpt cpts nodo with
  | none => []
  | some cpt =>
    cpt.padres.foldl
      (fun d p =>
        match dictGet asig p with
        | some x => dictInsert d p x
        | none => d)
      []

/-- The conditional factor the chain rule evaluates for one variable: the
assigned value is read from the complete assignment (a missing binding
raises a `KeyError`) and passed to `obtener_probabilidad` together with the
parent evidence. -/
def factorDe (cpts : Cpts) (asig : Dict) (nodo : String) : Except String ℚ :=
  match dictGet asig nodo with
  | none => .error ("KeyError: " ++ nodo)
  | some valor => obtener_probabilidad cpts nodo valor (evidenciaPadres cpts asig nodo)

/-- The loop body of `calcular_probabilidad_conjunta`, with the running
product and the `explicacion` list as accumulators.  A variable with no CPT
raises inside `obtener_probabilidad`; a factor equal to `0` returns
`(0.0, [])` at once, skipping every remaining variable. -/
def calcularAux (cpts : Cpts) (asig : Dict) :
    List String → ℚ → List Paso → Except String (ℚ × List Paso)
  | [], acc, expl => .ok (acc, expl)
  | vr :: rest, acc, expl =>
    match dictGet asig vr with
    | none => .error ("KeyError: " ++ vr)
    | some valor =>
      match getCpt cpts vr with
      | none => .error ("No hay CPT para " ++ vr)
      | some cpt =>
        match obtener_probabilidad cpts vr valor (evidenciaPadres cpts asig vr) with
        | .error e => .error e
        | .ok p =>
          if p = 0 then .ok (0, [])
          else
            calcularAux cpts asig rest (acc * p)
              (expl ++ [⟨vr, valor,
                if cpt.padres.isEmpty then none else some (evidenciaPadres cpts asig vr),
                p⟩])

/-- `calcular_probabilidad_conjunta(asignacion_completa)`: the chain-rule
product over all network variables, with its `explicacion` factor list. -/
def calcular_probabilidad_conjunta (cpts : Cpts) (todas : List String) (asig : Dict) :
    Except String (ℚ × List Paso) :=
  calcularAux cpts asig todas 1 []

/-- `calcular_probabilidad_conjunta` instrumented with a spy counter: the
second component counts how many `obtener_probabilidad` lookups the loop
performs before returning. -/
def calcularAuxN (cpts : Cpts) (asig : Dict) :
    List String → ℚ → Nat → Except String (ℚ × Nat)
  | [], acc, n => .ok (acc, n)
  | vr :: rest, acc, n =>
    match dictGet asig vr with
    | none => .error ("KeyError: " ++ vr)
    | some valor =>
      match getCpt cpts vr with
      | none => .error ("No hay CPT para " ++ vr)
      | some _ =>
        match obtener_probabilidad cpts vr valor (evidenciaPadres cpts asig vr) with
        | .error e => .error e
        | .ok p =>
          if p = 0 then .ok (0, n + 1)
          else calcularAuxN cpts asig rest (acc * p) (n + 1)

/-- The spy-instrumented joint evaluation: result together with the number
of conditional lookups performed. -/
def calcularN (cpts : Cpts) (todas : List String) (asig : Dict) :
    Except String (ℚ × Nat) :=
  calcularAuxN cpts asig todas 1 0

/-- The per-combination accumulation loop (lines `for combinacion in ...`):
adds every strictly positive joint probability to the running sum and counts
it as a valid combination. -/
def loopCombosPlain (cpts : Cpts) (todas : List String) :
    List Dict → ℚ → Nat → Except String (ℚ × Nat)
  | [], suma, n => .ok (suma, n)
  | c :: cs, suma, n =>
    match calcular_probabilidad_conjunta cpts todas c with
    | .error e => .error e
    | .ok (p, _) =>
      if 0 < p then loopCombosPlain cpts todas cs (suma + p) (n + 1)
      else loopCombosPlain cpts todas cs suma n

/-- The per-query-value loop of `inferencia_por_enumeracion`: seeds the base
assignment from a copy of the evidence extended with the query value,
enumerates every completion of the hidden variables and accumulates the
per-value sums in order. -/
def loopValoresPlain (cpts : Cpts) (todas ocultas : List String)
    (consulta : String) (evidencia : Dict) :
    List String → List (String × ℚ) → Except String (List (String × ℚ))
  | [], resultados => .ok resultados
  | valor :: vs, resultados =>
    match enumerar_combinaciones cpts ocultas (dictInsert evidencia consulta valor) with
    | .error e => .error e
    | .ok combos =>
      match loopCombosPlain cpts todas combos 0 0 with
      | .error e => .error e
      | .ok (suma, _) =>
        loopValoresPlain cpts todas ocultas consulta evidencia vs
          (resultados ++ [(valor, suma)])

/-- The hidden variables: every network variable other than the query that
the evidence does not bind, in network enumeration order. -/
def ocultasDe (vars : List String) (consulta : String) (evidencia : Dict) :
    List String :=
  vars.filter (fun v => !(v == consulta) && (dictGet evidencia v).isNone)

/-- The normalization tail of `inferencia_por_enumeracion` (lines 219-233):
a zero total signals impossible evidence by returning `None`; otherwise
every accumulated sum is scaled by `alpha = 1/total`. -/
def normalizar (resultados : List (String × ℚ)) : Option (List (String × ℚ)) :=
  let total := (resultados.map Prod.snd).sum
  if total = 0 then none
  else
    let alpha := 1 / total
    some (resultados.map (fun p => (p.1, p.2 * alpha)))

/-- The network handed to the engine: `list(self.variables)` — the variable
set in the iteration order the run obtains from it — and `self.cpts`. -/
structure Red where
  vars : List String
  cpts : Cpts
deriving DecidableEq

/-- `RedBayesiana.inferencia_por_enumeracion(consulta, evidencia)` without
its trace channel: value domains come from the query's CPT (a missing CPT
raises a `KeyError` before any enumeration), the per-value joint sums are
accumulated by enumeration over the hidden variables, and the result is the
normalized distribution, or `None` when the total mass is zero. -/
def inferencia_por_enumeracion (net : Red) (consulta : String) (evidencia : Dict) :
    Except String (Option (List (String × ℚ))) :=
  let todas := net.vars
  let ocultas := ocultasDe todas consulta evidencia
  match getCpt net.cpts consulta with
  | none => .error ("KeyError: " ++ consulta)
  | some cpt =>
    match loopValoresPlain net.cpts todas ocultas consulta evidencia (valoresDe cpt) [] with
    | .error e => .error e
    | .ok resultados => .ok (normalizar resultados)

/-- One message handed to `log_traza`, carrying the data the corresponding
f-string interpolates; the Python rendering of each constructor is injective
in that data (lists and dicts are printed element by element in order), so
two runs emit byte-identical trace text exactly when they emit equal entry
sequences.  The two `hdr` entries are the file header written before the
run; `log_traza` sends every other entry to both active sinks. -/
inductive Entry where
  | hdr1 : Entry
  | hdr2 : String → Dict → Entry
  | variablesLine : List String → Entry
  | ocultasLine : List String → Entry
  | consultaLine : String → Entry
  | evidenciaLine : Dict → Entry
  | valoresLine : String → List String → Entry
  | tituloCalculo : Entry
  | formulaLine : String → Dict → List String → Entry
  | calculoPara : String → String → Entry
  | combinacionLine : Nat → Dict → Entry
  | productoLine : List Paso → ℚ → Entry
  | sumaPara : String → String → ℚ → Entry
  | combosValidosLine : Nat → Entry
  | normTitulo : Entry
  | sumaTotalLine : ℚ → Entry
  | evidenciaImposible : Entry
  | alphaLine : ℚ → ℚ → Entry
  | probNormLine : String → String → ℚ → ℚ → ℚ → Entry
  | resultadoTitulo : Entry
  | finalLine : String → Dict → List (String × ℚ) → Entry
deriving DecidableEq

/-- The per-combination loop with the entries it logs (lines 211-212, only
for combinations of strictly positive probability); an exception leaves the
entries logged so far in place. -/
def loopCombosTr (cpts : Cpts) (todas : List String) :
    List Dict → ℚ → Nat → List Entry → Except String (ℚ × Nat) × List Entry
  | [], suma, n, es => (.ok (suma, n), es)
  | c :: cs, suma, n, es =>
    match calcular_probabilidad_conjunta cpts todas c with
    | .error e => (.error e, es)
    | .ok (p, expl) =>
      if 0 < p then
        loopCombosTr cpts todas cs (suma + p) (n + 1)
          (es ++ [.combinacionLine (n + 1) c, .productoLine expl p])
      else loopCombosTr cpts todas cs suma n es

/-- The per-query-value loop with its logging (lines 196-216). -/
def loopValoresTr (cpts : Cpts) (todas ocultas : List String)
    (consulta : String) (evidencia : Dict) :
    List String → List (String × ℚ) → List Entry →
      Except String (List (String × ℚ)) × List Entry
  | [], resultados, es => (.ok resultados, es)
  | valor :: vs, resultados, es =>
    let es1 := es ++ [.calculoPara consulta valor]
    match enumerar_combinaciones cpts ocultas (dictInsert evidencia consulta valor) with
    | .error e => (.error e, es1)
    | .ok combos =>
      match loopCombosTr cpts todas combos 0 0 es1 with
      | (.error e, es2) => (.error e, es2)
      | (.ok (suma, n), es2) =>
        loopValoresTr cpts todas ocultas consulta evidencia vs
          (resultados ++ [(valor, suma)])
          (es2 ++ [.sumaPara consulta valor suma, .combosValidosLine n])

/-- `inferencia_por_enumeracion` together with the ordered sequence of
entries it hands to `log_traza`; when an exception propagates out, the
second component is what had been logged up to that point. -/
def inferenciaTr (net : Red) (consulta : String) (evidencia : Dict) :
    Except String (Option (List (String × ℚ))) × List Entry :=
  let todas := net.vars
  let ocultas := ocultasDe todas consulta evidencia
  let es1 : List Entry :=
    [.variablesLine todas, .ocultasLine ocultas, .consultaLine consulta,
     .evidenciaLine evidencia]
  match getCpt net.cpts consulta with
  | none => (.error ("KeyError: " ++ consulta), es1)
  | some cpt =>
    let valores := valoresDe cpt
    let es2 := es1 ++ [.valoresLine consulta valores, .tituloCalculo,
                       .formulaLine consulta evidencia ocultas]
    match loopValoresTr net.cpts todas ocultas consulta evidencia valores [] es2 with
    | (.error e, es3) => (.error e, es3)
    | (.ok resultados, es3) =>
      let total := (resultados.map Prod.snd).sum
      let es4 := es3 ++ [.normTitulo, .sumaTotalLine total]
      if total = 0 then (.ok none, es4 ++ [.evidenciaImposible])
      else
        let alpha := 1 / total
        let es5 := es4 ++ [.alphaLine total alpha]
        let normalizados := resultados.map (fun p => (p.1, p.2 * alpha))
        let es6 := es5 ++ resultados.map
          (fun p => Entry.probNormLine consulta p.1 p.2 alpha (p.2 * alpha))
        (.ok (some normalizados),
         es6 ++ [.resultadoTitulo, .finalLine consulta evidencia normalizados])

/-- The full call `inferencia_por_enumeracion(consulta, evidencia,
mostrar_traza, archivo_traza)` observed at both sinks: the returned value,
the entries echoed to the console (`mostrar_traza`) and the entries written
to the trace file (`archivo_traza` truthy), the file starting with its
two-line header. -/
def inferenciaFull (net : Red) (consulta : String) (evidencia : Dict)
    (mostrar archivo : Bool) :
    Except String (Option (List (String × ℚ))) × List Entry × List Entry :=
  let r := inferenciaTr net consulta evidencia
  (r.1,
   if mostrar then r.2 else [],
   if archivo then Entry.hdr1 :: Entry.hdr2 consulta evidencia :: r.2 else [])

instance {ε α : Type} [DecidableEq ε] [DecidableEq α] : DecidableEq (Except ε α)
  | .error e, .error e' =>
    if h : e = e' then isTrue (by rw [h]) else isFalse (by simp [h])
  | .error _, .ok _ => isFalse (by simp)
  | .ok _, .error _ => isFalse (by simp)
  | .ok a, .ok b =>
    if h : a = b then isTrue (by rw [h]) else isFalse (by simp [h])

/-- Spec-side Cartesian product of a list of value domains, in enumeration
order: the first domain varies slowest. -/
def cartProd : List (List String) → List (List String)
  | [] => [[]]
  | d :: ds => d.flatMap (fun x => (cartProd ds).map (fun tup => x :: tup))

/-- Extend an assignment with a list of bindings, leftmost first. -/
def insertAll (asig : Dict) : List (String × String) → Dict
  | [] => asig
  | (k, v) :: ps => insertAll (dictInsert asig k v) ps

/-- The value domain the engine reads for a variable, empty when the
variable has no registered CPT. -/
def domCpts (cpts : Cpts) (vr : String) : List String :=
  match getCpt cpts vr with
  | some c => valoresDe c
  | none => []

/-- A concrete two-variable network used to exercise the engine: a root
variable `A` with values `a1`, `a2`, and a child `B` with parent `A` and
values `b1`, `b2`. -/
def cptA : CPT := ⟨[⟨[("A", some "a1")], 1/2⟩, ⟨[("A", some "a2")], 1/2⟩], [], "A"⟩

/-- CPT of the child variable `B`, conditioned on `A`. -/
def cptB : CPT :=
  ⟨[⟨[("A", some "a1"), ("B", some "b1")], 7/10⟩,
    ⟨[("A", some "a1"), ("B", some "b2")], 3/10⟩,
    ⟨[("A", some "a2"), ("B", some "b1")], 2/5⟩,
    ⟨[("A", some "a2"), ("B", some "b2")], 3/5⟩], ["A"], "B"⟩

/-- The CPT registry of the concrete network. -/
def exCpts : Cpts := [("A", cptA), ("B", cptB)]

/-- The concrete network with enumeration order `A`, `B`. -/
def exRed : Red := ⟨["A", "B"], exCpts⟩

/-- The same concrete network as `exRed` with the other realized iteration
order of the variable set `{A, B}`. -/
def exRed2 : Red := ⟨["B", "A"], exCpts⟩

/-- A network of two independent root variables `X` (only value `a`) and `Y`
(only value `b`), used to exercise impossible evidence. -/
def impCpts : Cpts :=
  [("X", ⟨[⟨[("X", some "a")], 1⟩], [], "X"⟩),
   ("Y", ⟨[⟨[("Y", some "b")], 1⟩], [], "Y"⟩)]

/-- The impossible-evidence network with enumeration order `X`, `Y`. -/
def impRed : Red := ⟨["X", "Y"], impCpts⟩

/-- A one-variable registry whose variable `x` has the single value `b`,
used to enumerate a hidden variable already bound in the base assignment. -/
def solapCpts : Cpts := [("x", ⟨[⟨[("x", some "b")], 1⟩], [], "x"⟩)]

/-! ## Lemmas and claim theorems -/

example : valoresDe cptA = ["a1", "a2"] := rfl
example : valoresDe cptB = ["b1", "b2"] := rfl
example : obtener_probabilidad exCpts "B" "b1" [("A", "a1")] = .ok (7/10) := by decide
example :
    inferencia_por_enumeracion exRed "B" [("A", "a1")] =
      .ok (some [("b1", 7/10), ("b2", 3/10)]) := by decide
example :
    inferencia_por_enumeracion exRed "B" [] =
      .ok (some [("b1", 11/20), ("b2", 9/20)]) := by decide
example :
    enumerar_combinaciones
      [("x", ⟨[⟨[("x", some "u")], 1⟩, ⟨[("x", some "w")], 0⟩], [], "x"⟩)]
      ["x"] [("e","1")] =
    .ok [[("e","1"),("x","u")], [("e","1"),("x","w")]] := rfl

lemma dictGet_dictInsert (d : Dict) (k v k' : String) :
    dictGet (dictInsert d k v) k' = if k = k' then some v else dictGet d k' := by
  induction d with
  | nil => simp [dictInsert, dictGet]
  | cons p rest ih =>
    obtain ⟨k0, v0⟩ := p
    by_cases h0 : k0 = k
    · subst h0
      by_cases h1 : k0 = k'
      · subst h1; simp [dictInsert, dictGet]
      · simp [dictInsert, dictGet, h1]
    · by_cases h1 : k0 = k'
      · subst h1
        have hk : k ≠ k0 := fun h => h0 h.symm
        simp [dictInsert, dictGet, h0, hk]
      · simp [dictInsert, dictGet, h0, h1, ih]

lemma dictGet_insertAll_of_not_mem (ps : List (String × String)) (base : Dict)
    (k : String) (h : ∀ p ∈ ps, p.1 ≠ k) :
    dictGet (insertAll base ps) k = dictGet base k := by
  induction ps generalizing base with
  | nil => rfl
  | cons p rest ih =>
    obtain ⟨k0, v0⟩ := p
    have hk0 : k0 ≠ k := h (k0, v0) (by simp)
    have hstep : dictGet (dictInsert base k0 v0) k = dictGet base k := by
      rw [dictGet_dictInsert]; simp [hk0]
    rw [insertAll, ih (dictInsert base k0 v0) (fun p hp => h p (by simp [hp])), hstep]

lemma filasCoincidentes_sin_padres (cpt : CPT) (evidencia : Dict)
    (hp : cpt.padres = []) : filasCoincidentes cpt evidencia = cpt.data := by
  unfold filasCoincidentes padresMask
  rw [hp]
  simp [List.all_nil]

/-- C2: if a variable has a registered CPT and either no table row matches
the parent filter or no surviving row carries the requested value, the
conditional lookup returns exactly `0.0` and raises no error. -/
theorem lookup_cero_sin_coincidencias (cpts : Cpts) (nodo valor : String)
    (evidencia : Dict) (cpt : CPT) (hc : getCpt cpts nodo = some cpt)
    (h : filasCoincidentes cpt evidencia = [] ∨
         filasValor cpt (filasCoincidentes cpt evidencia) valor = []) :
    obtener_probabilidad cpts nodo valor evidencia = .ok 0 := by
  unfold obtener_probabilidad
  rw [hc]
  by_cases hp : cpt.padres.isEmpty
  · have hpn : cpt.padres = [] := by simpa [List.isEmpty_iff] using hp
    rw [filasCoincidentes_sin_padres cpt evidencia hpn] at h
    have hv : filasValor cpt cpt.data valor = [] := by
      rcases h with h | h
      · unfold filasValor; rw [h]; rfl
      · exact h
    simp [hp, hv]
  · rcases h with h | h
    · simp [hp, h]
    · cases hfc : filasCoincidentes cpt evidencia with
      | nil => simp [hp, hfc]
      | cons f fs =>
        rw [hfc] at h
        simp [hp, hfc, h]

theorem lookup_cero_sin_coincidencias_witness :
    getCpt exCpts "B" = some cptB ∧
    filasValor cptB (filasCoincidentes cptB [("A", "a1")]) "b9" = [] ∧
    obtener_probabilidad exCpts "B" "b9" [("A", "a1")] = .ok 0 :=
  ⟨by decide, by decide,
   lookup_cero_sin_coincidencias exCpts "B" "b9" [("A", "a1")] cptB (by decide)
     (Or.inr (by decide))⟩

/-- C6: a root variable's lookup (its CPT declares no parents) returns the
same probability for any two supplied parent-evidence dictionaries: the
filter step is skipped and the match is on the value column only. -/
theorem lookup_raiz_ignora_evidencia (cpts : Cpts) (nodo valor : String)
    (cpt : CPT) (hc : getCpt cpts nodo = some cpt) (hp : cpt.padres = [])
    (ev1 ev2 : Dict) :
    obtener_probabilidad cpts nodo valor ev1 = obtener_probabilidad cpts nodo valor ev2 := by
  unfold obtener_probabilidad
  rw [hc]
  simp [hp]

theorem lookup_raiz_ignora_evidencia_witness :
    getCpt exCpts "A" = some cptA ∧ cptA.padres = [] ∧
    obtener_probabilidad exCpts "A" "a1" [("B", "b1"), ("Z", "z")] =
      obtener_probabilidad exCpts "A" "a1" [] :=
  ⟨by decide, by decide,
   lookup_raiz_ignora_evidencia exCpts "A" "a1" cptA (by decide) (by decide)
     [("B", "b1"), ("Z", "z")] []⟩

/-- C7: a variable without a registered CPT makes the conditional lookup
raise a configuration error, makes enumeration raise a `KeyError` the moment
it is the next variable to enumerate, and — when the query variable itself
has no CPT — makes the inference call fail right after echoing the variable
lists, before any per-value enumeration entry is traced and with no
distribution produced. -/
theorem cpt_faltante_falla :
    (∀ (cpts : Cpts) (nodo valor : String) (ev : Dict),
       getCpt cpts nodo = none →
       obtener_probabilidad cpts nodo valor ev = .error ("No hay CPT para " ++ nodo)) ∧
    (∀ (cpts : Cpts) (vr : String) (rest : List String) (asig : Dict),
       getCpt cpts vr = none →
       enumerar_combinaciones cpts (vr :: rest) asig = .error ("KeyError: " ++ vr)) ∧
    (∀ (net : Red) (consulta : String) (ev : Dict) (m a : Bool),
       getCpt net.cpts consulta = none →
       inferenciaFull net consulta ev m a =
         (.error ("KeyError: " ++ consulta),
          if m then
            [.variablesLine net.vars, .ocultasLine (ocultasDe net.vars consulta ev),
             .consultaLine consulta, .evidenciaLine ev]
          else [],
          if a then
            [Entry.hdr1, Entry.hdr2 consulta ev,
             .variablesLine net.vars, .ocultasLine (ocultasDe net.vars consulta ev),
             .consultaLine consulta, .evidenciaLine ev]
          else [])) := by
  refine ⟨?_, ?_, ?_⟩
  · intro cpts nodo valor ev h
    unfold obtener_probabilidad
    rw [h]
  · intro cpts vr rest asig h
    unfold enumerar_combinaciones
    rw [h]
  · intro net consulta ev m a h
    unfold inferenciaFull inferenciaTr
    rw [h]

theorem cpt_faltante_falla_witness :
    getCpt exCpts "Z" = none ∧
    obtener_probabilidad exCpts "Z" "a" [] = .error "No hay CPT para Z" ∧
    enumerar_combinaciones exCpts ["Z", "A"] [] = .error "KeyError: Z" ∧
    inferenciaFull (Red.mk ["A", "Z"] exCpts) "Z" [] true true =
      (.error "KeyError: Z",
       [.variablesLine ["A", "Z"], .ocultasLine ["A"], .consultaLine "Z",
        .evidenciaLine []],
       [Entry.hdr1, Entry.hdr2 "Z" [],
        .variablesLine ["A", "Z"], .ocultasLine ["A"], .consultaLine "Z",
        .evidenciaLine []]) :=
  ⟨by decide,
   cpt_faltante_falla.1 exCpts "Z" "a" [] (by decide),
   cpt_faltante_falla.2.1 exCpts "Z" ["A"] [] (by decide),
   cpt_faltante_falla.2.2 (Red.mk ["A", "Z"] exCpts) "Z" [] true true (by decide)⟩

/-- C4: when the accumulated per-value sums have a strictly positive total,
normalization returns exactly each sum scaled by `alpha = 1/total`, the
scaled values sum to `1`, and the concrete sums `{a: 2, b: 6}` normalize to
the distribution `{a: 1/4, b: 3/4}`. -/
theorem normalizacion_correcta (res : List (String × ℚ))
    (h : 0 < (res.map Prod.snd).sum) :
    normalizar res =
      some (res.map (fun p => (p.1, p.2 * (1 / (res.map Prod.snd).sum)))) ∧
    ((res.map (fun p => (p.1, p.2 * (1 / (res.map Prod.snd).sum)))).map Prod.snd).sum = 1 ∧
    normalizar [("a", 2), ("b", 6)] = some [("a", 1/4), ("b", 3/4)] := by
  have hne : (res.map Prod.snd).sum ≠ 0 := ne_of_gt h
  refine ⟨?_, ?_, ?_⟩
  · unfold normalizar
    simp [hne]
  · rw [List.map_map]
    have hcomp :
        (Prod.snd ∘ fun p : String × ℚ => (p.1, p.2 * (1 / (res.map Prod.snd).sum))) =
        fun p : String × ℚ => p.2 * (1 / (res.map Prod.snd).sum) := rfl
    rw [hcomp, List.sum_map_mul_right, mul_one_div_cancel hne]
  · decide

theorem normalizacion_correcta_witness :
    0 < (([("a", 2), ("b", 6)] : List (String × ℚ)).map Prod.snd).sum ∧
    normalizar [("a", 2), ("b", 6)] = some [("a", 1/4), ("b", 3/4)] :=
  ⟨by decide, (normalizacion_correcta [("a", 2), ("b", 6)] (by decide)).2.2⟩

/-- C5: when the engine reaches normalization with per-value sums of total
exactly `0`, the inference returns the distinguished no-result outcome
`None` — not a distribution of zeros, and without dividing by the total. -/
theorem evidencia_imposible_sin_distribucion (net : Red) (consulta : String)
    (evidencia : Dict) (cpt : CPT) (res : List (String × ℚ))
    (hc : getCpt net.cpts consulta = some cpt)
    (hr : loopValoresPlain net.cpts net.vars (ocultasDe net.vars consulta evidencia)
            consulta evidencia (valoresDe cpt) [] = .ok res)
    (h0 : (res.map Prod.snd).sum = 0) :
    inferencia_por_enumeracion net consulta evidencia = .ok none := by
  unfold inferencia_por_enumeracion
  simp only [hc]
  rw [hr]
  unfold normalizar
  simp [h0]

theorem evidencia_imposible_sin_distribucion_witness :
    getCpt impCpts "X" = some ⟨[⟨[("X", some "a")], 1⟩], [], "X"⟩ ∧
    loopValoresPlain impCpts ["X", "Y"] (ocultasDe ["X", "Y"] "X" [("Y", "c")])
      "X" [("Y", "c")] (valoresDe ⟨[⟨[("X", some "a")], 1⟩], [], "X"⟩) [] =
      .ok [("a", 0)] ∧
    (([("a", (0 : ℚ))].map Prod.snd).sum = 0) ∧
    inferencia_por_enumeracion impRed "X" [("Y", "c")] = .ok none :=
  ⟨by decide, by decide, by decide,
   evidencia_imposible_sin_distribucion impRed "X" [("Y", "c")]
     ⟨[⟨[("X", some "a")], 1⟩], [], "X"⟩ [("a", 0)] (by decide) (by decide) (by decide)⟩

lemma obtener_ok_some_cpt {cpts : Cpts} {nodo valor : String} {ev : Dict} {q : ℚ}
    (h : obtener_probabilidad cpts nodo valor ev = .ok q) :
    ∃ cpt, getCpt cpts nodo = some cpt := by
  unfold obtener_probabilidad at h
  cases hg : getCpt cpts nodo with
  | none => rw [hg] at h; exact absurd h (by simp)
  | some cpt => exact ⟨cpt, rfl⟩

lemma calcularAux_factor_cero {cpts : Cpts} {asig : Dict} {vr : String}
    (h : factorDe cpts asig vr = .ok 0) (rest : List String) (acc : ℚ)
    (expl : List Paso) :
    calcularAux cpts asig (vr :: rest) acc expl = .ok (0, []) := by
  unfold factorDe at h
  cases hv : dictGet asig vr with
  | none => rw [hv] at h; exact absurd h (by simp)
  | some valor =>
    rw [hv] at h
    have hobt : obtener_probabilidad cpts vr valor (evidenciaPadres cpts asig vr) = .ok 0 := h
    obtain ⟨cpt, hc⟩ := obtener_ok_some_cpt hobt
    unfold calcularAux
    simp only [hv, hc, hobt]
    simp

lemma calcularAuxN_factor_cero {cpts : Cpts} {asig : Dict} {vr : String}
    (h : factorDe cpts asig vr = .ok 0) (rest : List String) (acc : ℚ) (n : Nat) :
    calcularAuxN cpts asig (vr :: rest) acc n = .ok (0, n + 1) := by
  unfold factorDe at h
  cases hv : dictGet asig vr with
  | none => rw [hv] at h; exact absurd h (by simp)
  | some valor =>
    rw [hv] at h
    have hobt : obtener_probabilidad cpts vr valor (evidenciaPadres cpts asig vr) = .ok 0 := h
    obtain ⟨cpt, hc⟩ := obtener_ok_some_cpt hobt
    unfold calcularAuxN
    simp only [hv, hc, hobt]
    simp

lemma calcularAux_factor_no_cero {cpts : Cpts} {asig : Dict} {vr : String} {q : ℚ}
    (h : factorDe cpts asig vr = .ok q) (hq : q ≠ 0) (rest : List String) (acc : ℚ)
    (expl : List Paso) :
    ∃ expl', calcularAux cpts asig (vr :: rest) acc expl =
      calcularAux cpts asig rest (acc * q) expl' := by
  unfold factorDe at h
  cases hv : dictGet asig vr with
  | none => rw [hv] at h; exact absurd h (by simp)
  | some valor =>
    rw [hv] at h
    have hobt : obtener_probabilidad cpts vr valor (evidenciaPadres cpts asig vr) = .ok q := h
    obtain ⟨cpt, hc⟩ := obtener_ok_some_cpt hobt
    refine ⟨expl ++ [⟨vr, valor,
      if cpt.padres.isEmpty then none else some (evidenciaPadres cpts asig vr), q⟩], ?_⟩
    unfold calcularAux
    simp only [hv, hc, hobt]
    simp only [if_neg hq]
    cases rest <;> rfl

lemma calcularAuxN_factor_no_cero {cpts : Cpts} {asig : Dict} {vr : String} {q : ℚ}
    (h : factorDe cpts asig vr = .ok q) (hq : q ≠ 0) (rest : List String) (acc : ℚ)
    (n : Nat) :
    calcularAuxN cpts asig (vr :: rest) acc n =
      calcularAuxN cpts asig rest (acc * q) (n + 1) := by
  unfold factorDe at h
  cases hv : dictGet asig vr with
  | none => rw [hv] at h; exact absurd h (by simp)
  | some valor =>
    rw [hv] at h
    have hobt : obtener_probabilidad cpts vr valor (evidenciaPadres cpts asig vr) = .ok q := h
    obtain ⟨cpt, hc⟩ := obtener_ok_some_cpt hobt
    unfold calcularAuxN
    simp only [hv, hc, hobt]
    simp only [if_neg hq]
    cases rest <;> rfl

/-- C3: in the chain-rule evaluation of a complete assignment, when the
factors of the variables before position `k` are all nonzero and the factor
at position `k` (1-based, `k = pre.length + 1`) is exactly `0`, the
evaluation returns joint probability `0` immediately and the spy counter
records exactly `k` conditional lookups — not one per network variable. -/
theorem poda_corto_circuito (cpts : Cpts) (asig : Dict) (pre post : List String)
    (vr : String)
    (h1 : ∀ x ∈ pre, ∃ q, factorDe cpts asig x = .ok q ∧ q ≠ 0)
    (h2 : factorDe cpts asig vr = .ok 0) :
    calcularN cpts (pre ++ vr :: post) asig = .ok (0, pre.length + 1) ∧
    calcular_probabilidad_conjunta cpts (pre ++ vr :: post) asig = .ok (0, []) := by
  have key : ∀ (pre' : List String), (∀ x ∈ pre', ∃ q, factorDe cpts asig x = .ok q ∧ q ≠ 0) →
      ∀ (acc : ℚ) (n : Nat) (expl : List Paso),
        calcularAuxN cpts asig (pre' ++ vr :: post) acc n = .ok (0, n + pre'.length + 1) ∧
        calcularAux cpts asig (pre' ++ vr :: post) acc expl = .ok (0, []) := by
    intro pre'
    induction pre' with
    | nil =>
      intro _ acc n expl
      exact ⟨calcularAuxN_factor_cero h2 post acc n,
             calcularAux_factor_cero h2 post acc expl⟩
    | cons x xs ih =>
      intro hx acc n expl
      obtain ⟨q, hq, hq0⟩ := hx x (by simp)
      have ihx := ih (fun y hy => hx y (by simp [hy]))
      constructor
      · rw [List.cons_append, calcularAuxN_factor_no_cero hq hq0]
        have := (ihx (acc * q) (n + 1) expl).1
        rw [this]
        have harith : n + 1 + xs.length + 1 = n + (x :: xs).length + 1 := by
          simp [List.length_cons]; omega
        rw [harith]
      · rw [List.cons_append]
        obtain ⟨expl', hstep⟩ := calcularAux_factor_no_cero hq hq0
          (xs ++ vr :: post) acc expl
        rw [hstep]
        exact (ihx (acc * q) (n + 1) expl').2
  have hk := key pre h1 1 0 []
  refine ⟨?_, ?_⟩
  · unfold calcularN
    rw [hk.1]
    have : 0 + pre.length + 1 = pre.length + 1 := by omega
    rw [this]
  · unfold calcular_probabilidad_conjunta
    exact hk.2

theorem poda_corto_circuito_witness :
    (∀ x ∈ ["A"], ∃ q, factorDe exCpts [("A", "a1"), ("B", "zz")] x = .ok q ∧ q ≠ 0) ∧
    factorDe exCpts [("A", "a1"), ("B", "zz")] "B" = .ok 0 ∧
    calcularN exCpts ["A", "B", "A"] [("A", "a1"), ("B", "zz")] = .ok (0, 2) ∧
    calcular_probabilidad_conjunta exCpts ["A", "B", "A"] [("A", "a1"), ("B", "zz")] =
      .ok (0, []) := by
  have h1 : ∀ x ∈ ["A"], ∃ q, factorDe exCpts [("A", "a1"), ("B", "zz")] x = .ok q ∧ q ≠ 0 := by
    intro x hx
    have hxa : x = "A" := by simpa using hx
    subst hxa
    exact ⟨1/2, by decide, by decide⟩
  have h2 : factorDe exCpts [("A", "a1"), ("B", "zz")] "B" = .ok 0 := by decide
  have main := poda_corto_circuito exCpts [("A", "a1"), ("B", "zz")] ["A"] ["A"] "B" h1 h2
  exact ⟨h1, h2, main.1, main.2⟩

lemma foldr_enumStep_ok {g : Dict → Except String (List Dict)} {vr : String}
    {asig : Dict} {vals : List String} {L : List Dict}
    (h : vals.foldr (enumStep g vr asig) (.ok []) = .ok L) :
    ∀ a ∈ L, ∃ val ∈ vals, ∃ Lv, g (dictInsert asig vr val) = .ok Lv ∧ a ∈ Lv := by
  induction vals generalizing L with
  | nil =>
    simp only [List.foldr_nil] at h
    have hL : L = [] := by injection h with h'; exact h'.symm
    subst hL
    intro a ha
    exact absurd ha (by simp)
  | cons val vals ih =>
    rw [List.foldr_cons] at h
    cases h2 : vals.foldr (enumStep g vr asig) (.ok []) with
    | error e =>
      rw [h2] at h
      unfold enumStep at h
      cases h1 : g (dictInsert asig vr val) with
      | error e1 => simp only [h1] at h; exact absurd h (by simp)
      | ok l => simp only [h1] at h; exact absurd h (by simp)
    | ok ls =>
      rw [h2] at h
      unfold enumStep at h
      cases h1 : g (dictInsert asig vr val) with
      | error e1 => simp only [h1] at h; exact absurd h (by simp)
      | ok l =>
        simp only [h1] at h
        have hL : l ++ ls = L := by injection h
        intro a ha
        rw [← hL] at ha
        rcases List.mem_append.mp ha with hal | hals
        · exact ⟨val, by simp, l, h1, hal⟩
        · obtain ⟨v', hv', Lv, hLv, haLv⟩ := ih h2 a hals
          exact ⟨v', by simp [hv'], Lv, hLv, haLv⟩

lemma foldr_enumStep_eq {g : Dict → Except String (List Dict)} {vr : String}
    {asig : Dict} (F : String → List Dict) (vals : List String)
    (h : ∀ val ∈ vals, g (dictInsert asig vr val) = .ok (F val)) :
    vals.foldr (enumStep g vr asig) (.ok []) = .ok (vals.flatMap F) := by
  induction vals with
  | nil => rfl
  | cons val vals ih =>
    rw [List.foldr_cons, ih (fun v hv => h v (by simp [hv]))]
    unfold enumStep
    simp only [h val (by simp)]
    simp [List.flatMap_cons]

lemma enumerar_preserva (cpts : Cpts) :
    ∀ (hidden : List String) (asig : Dict) (L : List Dict),
      enumerar_combinaciones cpts hidden asig = .ok L →
      ∀ a ∈ L, ∀ k, k ∉ hidden → dictGet a k = dictGet asig k := by
  intro hidden
  induction hidden with
  | nil =>
    intro asig L hL a ha k _
    simp only [enumerar_combinaciones] at hL
    have hLa : [asig] = L := by injection hL
    rw [← hLa] at ha
    have : a = asig := by simpa using ha
    rw [this]
  | cons vr rest ih =>
    intro asig L hL a ha k hk
    have hkvr : k ≠ vr := fun hh => hk (by simp [hh])
    have hkrest : k ∉ rest := fun hh => hk (by simp [hh])
    simp only [enumerar_combinaciones] at hL
    cases hc : getCpt cpts vr with
    | none => simp only [hc] at hL; exact absurd hL (by simp)
    | some cpt =>
      simp only [hc] at hL
      obtain ⟨val, _, Lv, hLv, haLv⟩ := foldr_enumStep_ok hL a ha
      rw [ih (dictInsert asig vr val) Lv hLv a haLv k hkrest, dictGet_dictInsert,
        if_neg (fun hh => hkvr hh.symm)]

lemma enumerar_cartesiano (cpts : Cpts) :
    ∀ (hidden : List String) (base : Dict),
      (∀ vr ∈ hidden, (getCpt cpts vr).isSome) →
      enumerar_combinaciones cpts hidden base =
        .ok ((cartProd (hidden.map (domCpts cpts))).map
              (fun tup => insertAll base (hidden.zip tup))) := by
  intro hidden
  induction hidden with
  | nil => intro base _; rfl
  | cons vr rest ih =>
    intro base h
    obtain ⟨cpt, hc⟩ := Option.isSome_iff_exists.mp (h vr (by simp))
    simp only [enumerar_combinaciones, hc]
    have hF : ∀ val ∈ valoresDe cpt,
        enumerar_combinaciones cpts rest (dictInsert base vr val) =
          .ok ((cartProd (rest.map (domCpts cpts))).map
                (fun tup => insertAll (dictInsert base vr val) (rest.zip tup))) :=
      fun val _ => ih (dictInsert base vr val) (fun x hx => h x (by simp [hx]))
    rw [foldr_enumStep_eq _ _ hF]
    congr 1
    have hdom : domCpts cpts vr = valoresDe cpt := by simp [domCpts, hc]
    simp only [List.map_cons, hdom, cartProd, List.map_flatMap, List.map_map]
    congr 1

/-- C1 counterexample: enumerating a hidden variable that the base
assignment already binds overwrites that binding, so the returned
assignment does not extend the base assignment: with `x` bound to `a` in
the base and domain `[b]`, the single result binds `x` to `b`. -/
theorem enumeracion_no_extiende_base_solapada :
    enumerar_combinaciones solapCpts ["x"] [("x", "a")] = .ok [[("x", "b")]] ∧
    dictGet [("x", "b")] "x" ≠ dictGet [("x", "a")] "x" :=
  ⟨by decide, by decide⟩

/-- C1 (amended): for hidden variables that all have a registered CPT and do
not occur among the base assignment's keys, the recursive enumeration
returns exactly the Cartesian product of the hidden variables' value
domains — each domain being the distinct non-missing values of the
variable's CPT value column in first-occurrence order — laid over the base
assignment in order; every result extends the base assignment, and for the
empty hidden list the result is exactly the base assignment. -/
theorem enumeracion_producto_cartesiano (cpts : Cpts) (hidden : List String)
    (base : Dict)
    (h : ∀ vr ∈ hidden, (getCpt cpts vr).isSome)
    (hdisj : ∀ vr ∈ hidden, dictGet base vr = none) :
    enumerar_combinaciones cpts hidden base =
      .ok ((cartProd (hidden.map (domCpts cpts))).map
            (fun tup => insertAll base (hidden.zip tup))) ∧
    (∀ L, enumerar_combinaciones cpts hidden base = .ok L →
       ∀ asig ∈ L, ∀ k x, dictGet base k = some x → dictGet asig k = some x) ∧
    enumerar_combinaciones cpts [] base = .ok [base] := by
  refine ⟨enumerar_cartesiano cpts hidden base h, ?_, rfl⟩
  intro L hL asig haL k x hkx
  have hk : k ∉ hidden := by
    intro hkh
    rw [hdisj k hkh] at hkx
    exact Option.noConfusion hkx
  rw [enumerar_preserva cpts hidden base L hL asig haL k hk]
  exact hkx

theorem enumeracion_producto_cartesiano_witness :
    (∀ vr ∈ ["B"], (getCpt exCpts vr).isSome) ∧
    (∀ vr ∈ ["B"], dictGet [("A", "a1")] vr = none) ∧
    (enumerar_combinaciones exCpts ["B"] [("A", "a1")] =
       .ok ((cartProd (["B"].map (domCpts exCpts))).map
             (fun tup => insertAll [("A", "a1")] (["B"].zip tup))) ∧
     (∀ L, enumerar_combinaciones exCpts ["B"] [("A", "a1")] = .ok L →
        ∀ asig ∈ L, ∀ k x, dictGet [("A", "a1")] k = some x → dictGet asig k = some x) ∧
     enumerar_combinaciones exCpts [] [("A", "a1")] = .ok [[("A", "a1")]]) :=
  ⟨by decide, by decide,
   enumeracion_producto_cartesiano exCpts ["B"] [("A", "a1")] (by decide) (by decide)⟩

/-- C10: the inference never mutates the caller's evidence: the base
assignment is a fresh dict extending a copy of the evidence with the query
binding — every evidence binding other than the query's survives unchanged
into the base assignment and into every enumerated combination — and the
evidence value itself is untouched. -/
theorem evidencia_no_mutada (net : Red) (consulta valor : String) (evidencia : Dict)
    (k x : String) (L : List Dict)
    (hL : enumerar_combinaciones net.cpts (ocultasDe net.vars consulta evidencia)
            (dictInsert evidencia consulta valor) = .ok L)
    (hk : dictGet evidencia k = some x) (hkc : k ≠ consulta) :
    dictGet (dictInsert evidencia consulta valor) k = some x ∧
    ∀ a ∈ L, dictGet a k = some x := by
  have hbase : dictGet (dictInsert evidencia consulta valor) k = some x := by
    rw [dictGet_dictInsert, if_neg (fun hh => hkc hh.symm)]
    exact hk
  refine ⟨hbase, fun a ha => ?_⟩
  have hkh : k ∉ ocultasDe net.vars consulta evidencia := by
    intro hmem
    unfold ocultasDe at hmem
    have := List.of_mem_filter hmem
    simp [hk] at this
  rw [enumerar_preserva net.cpts _ _ L hL a ha k hkh]
  exact hbase

theorem evidencia_no_mutada_witness :
    enumerar_combinaciones exRed.cpts (ocultasDe exRed.vars "B" [("A", "a1")])
      (dictInsert [("A", "a1")] "B" "b1") = .ok [[("A", "a1"), ("B", "b1")]] ∧
    dictGet [("A", "a1")] "A" = some "a1" ∧
    (dictGet (dictInsert [("A", "a1")] "B" "b1") "A" = some "a1" ∧
     ∀ a ∈ [[("A", "a1"), ("B", "b1")]], dictGet a "A" = some "a1") :=
  ⟨by decide, by decide,
   evidencia_no_mutada exRed "B" "b1" [("A", "a1")] "A" "a1"
     [[("A", "a1"), ("B", "b1")]] (by decide) (by decide) (by decide)⟩

lemma loopCombosTr_fst (cpts : Cpts) (todas : List String) :
    ∀ (combos : List Dict) (suma : ℚ) (n : Nat) (es : List Entry),
      (loopCombosTr cpts todas combos suma n es).1 =
        loopCombosPlain cpts todas combos suma n := by
  intro combos
  induction combos with
  | nil => intro suma n es; rfl
  | cons c cs ih =>
    intro suma n es
    unfold loopCombosTr loopCombosPlain
    cases h : calcular_probabilidad_conjunta cpts todas c with
    | error e => simp only [h]
    | ok pe =>
      obtain ⟨p, expl⟩ := pe
      simp only [h]
      by_cases hp : 0 < p
      · simp only [if_pos hp]; exact ih _ _ _
      · simp only [if_neg hp]; exact ih _ _ _

lemma loopValoresTr_fst (cpts : Cpts) (todas ocultas : List String)
    (consulta : String) (evidencia : Dict) :
    ∀ (vs : List String) (resultados : List (String × ℚ)) (es : List Entry),
      (loopValoresTr cpts todas ocultas consulta evidencia vs resultados es).1 =
        loopValoresPlain cpts todas ocultas consulta evidencia vs resultados := by
  intro vs
  induction vs with
  | nil => intro r es; rfl
  | cons valor vs ih =>
    intro r es
    unfold loopValoresTr loopValoresPlain
    cases he : enumerar_combinaciones cpts ocultas (dictInsert evidencia consulta valor) with
    | error e => simp only [he]
    | ok combos =>
      simp only [he]
      have hplain := loopCombosTr_fst cpts todas combos 0 0
        (es ++ [Entry.calculoPara consulta valor])
      cases hT : loopCombosTr cpts todas combos 0 0
          (es ++ [Entry.calculoPara consulta valor]) with
      | mk r2 es2 =>
        rw [hT] at hplain
        have hplain2 : r2 = loopCombosPlain cpts todas combos 0 0 := hplain
        simp only [hT, ← hplain2]
        cases r2 with
        | error e => rfl
        | ok sn =>
          obtain ⟨suma, n⟩ := sn
          exact ih _ _

lemma inferenciaTr_fst (net : Red) (consulta : String) (evidencia : Dict) :
    (inferenciaTr net consulta evidencia).1 =
      inferencia_por_enumeracion net consulta evidencia := by
  unfold inferenciaTr inferencia_por_enumeracion
  cases hc : getCpt net.cpts consulta with
  | none => simp only [hc]
  | some cpt =>
    simp only [hc]
    have hTP := loopValoresTr_fst net.cpts net.vars
      (ocultasDe net.vars consulta evidencia) consulta evidencia (valoresDe cpt) []
      ([Entry.variablesLine net.vars,
        Entry.ocultasLine (ocultasDe net.vars consulta evidencia),
        Entry.consultaLine consulta, Entry.evidenciaLine evidencia] ++
       [Entry.valoresLine consulta (valoresDe cpt), Entry.tituloCalculo,
        Entry.formulaLine consulta evidencia (ocultasDe net.vars consulta evidencia)])
    cases hT : loopValoresTr net.cpts net.vars
        (ocultasDe net.vars consulta evidencia) consulta evidencia (valoresDe cpt) []
        ([Entry.variablesLine net.vars,
          Entry.ocultasLine (ocultasDe net.vars consulta evidencia),
          Entry.consultaLine consulta, Entry.evidenciaLine evidencia] ++
         [Entry.valoresLine consulta (valoresDe cpt), Entry.tituloCalculo,
          Entry.formulaLine consulta evidencia
            (ocultasDe net.vars consulta evidencia)]) with
    | mk r es3 =>
      rw [hT] at hTP
      have hTP2 : r = loopValoresPlain net.cpts net.vars
          (ocultasDe net.vars consulta evidencia) consulta evidencia
          (valoresDe cpt) [] := hTP
      simp only [hT, ← hTP2]
      cases r with
      | error e => rfl
      | ok resultados =>
        unfold normalizar
        by_cases h0 : ((resultados.map Prod.snd).sum : ℚ) = 0
        · simp [h0]
        · simp [h0]

/-- C8: the returned distribution is the same whatever the trace options:
for every network, query, and evidence, the result component of a run with
any `mostrar_traza`/`archivo_traza` flags equals the untraced computation
and equals the run with both trace channels off — trace emission never
feeds back into the computed values. -/
theorem traza_no_altera_resultado (net : Red) (consulta : String) (evidencia : Dict)
    (mostrar archivo : Bool) :
    (inferenciaFull net consulta evidencia mostrar archivo).1 =
      inferencia_por_enumeracion net consulta evidencia ∧
    (inferenciaFull net consulta evidencia mostrar archivo).1 =
      (inferenciaFull net consulta evidencia false false).1 :=
  ⟨inferenciaTr_fst net consulta evidencia,
   (inferenciaTr_fst net consulta evidencia).trans
     (inferenciaTr_fst net consulta evidencia).symm⟩

/-- C9 counterexample: the trace output is not determined by the network's
variable set, query and evidence alone — it depends on the realized
iteration order of `self.variables`, which a Python set does not fix across
runs: two runs over the same variable set, CPTs, query and evidence whose
realized orders differ produce different trace files (the returned
distribution here being equal), so byte-identical trace output across
repeated runs is not guaranteed. -/
theorem traza_depende_del_orden :
    exRed.vars.Perm exRed2.vars ∧ exRed.cpts = exRed2.cpts ∧
    (inferenciaFull exRed "B" [("A", "a1")] true true).1 =
      (inferenciaFull exRed2 "B" [("A", "a1")] true true).1 ∧
    (inferenciaFull exRed "B" [("A", "a1")] true true).2.2 ≠
      (inferenciaFull exRed2 "B" [("A", "a1")] true true).2.2 :=
  ⟨by decide, rfl, by decide, by decide⟩

/-- C9 (amended): for a fixed network object — the variable set in the
iteration order the run realizes — query and evidence, the run is
deterministic: the console and file sinks receive one and the same entry
sequence regardless of which sinks are active (the file adding only its
two-line header); across runs the realized order of `list(self.variables)`
may change, and then the trace output differs even when (as in the concrete
example) the returned distribution does not. -/
theorem determinismo_traza_orden_fijo :
    (∀ (net : Red) (consulta : String) (evidencia : Dict) (m a a' : Bool),
       (inferenciaFull net consulta evidencia true a).2.1 =
         (inferenciaFull net consulta evidencia true a').2.1 ∧
       (inferenciaFull net consulta evidencia m true).2.2 =
         Entry.hdr1 :: Entry.hdr2 consulta evidencia ::
           (inferenciaFull net consulta evidencia true a).2.1) ∧
    ((inferenciaFull exRed "B" [("A", "a1")] true true).1 =
       (inferenciaFull exRed2 "B" [("A", "a1")] true true).1) ∧
    ((inferenciaFull exRed "B" [("A", "a1")] true true).2.1 ≠
       (inferenciaFull exRed2 "B" [("A", "a1")] true true).2.1) :=
  ⟨fun net consulta evidencia m a a' => ⟨rfl, rfl⟩, by decide, by decide⟩
